import Mathlib

/-!
Verification of the grouped-media composition engine
(`Telegram/SourceFiles/history/view/media/history_view_media_grouped.cpp`).

The development shallowly embeds the geometry and group-construction code of
`HistoryView::GroupedMedia`.  Machine integers are modelled as `Int`.  The
floating-point proportional-rescale factor is modelled by the exact rational
value `v * newWidth / maxW` — expressed with integer floor division so that
it is kernel-computable — rounded half away from zero as `std::round` does;
the specification itself describes the factor as the real quotient
`targetWidth / naturalMaxWidth`, and on the concrete inputs appearing in the
counterexamples below the `float64` computation yields the same values (all
intermediate products are far inside the exactly-representable range).
External collaborators (the grid packer `Ui::LayoutMediaGroup`, the
per-member content delegates, the caption text engine, the selection
predicate `IsGroupItemSelection`) are modelled as opaque function parameters
or function-valued fields, exactly as the specification declares them
external.
-/

namespace GroupedMedia

/-- Width/height pair, modelling `QSize`. -/
structure QSizeM where
  w : Int
  h : Int
deriving DecidableEq, Inhabited, Repr

/-- Rectangle with x, y, width, height, modelling `QRect` as constructed by
`QRect(x, y, w, h)`. -/
structure QRectM where
  x : Int
  y : Int
  w : Int
  h : Int
deriving DecidableEq, Inhabited, Repr

/-- The set of outer edges a member touches, modelling the `RectParts` flags
Left, Right, Top, Bottom. -/
structure Sides where
  left : Bool
  right : Bool
  top : Bool
  bottom : Bool
deriving DecidableEq, Inhabited, Repr

/-- One entry of a computed layout, modelling `Ui::GroupMediaLayout`. -/
structure GroupMediaLayout where
  geometry : QRectM
  sides : Sides
deriving DecidableEq, Inhabited, Repr

/-- Width used by `LayoutPlaylist`: the maximal width among the input sizes,
as computed by `ranges::max_element(sizes, less, QSize width)`. -/
def playlistWidth : List QSizeM → Int
  | [] => 0
  | s :: rest => rest.foldl (fun a t => max a t.w) s.w

/-- The vertical stacking loop of `LayoutPlaylist`: each size produces a
rectangle at x = 0 of the shared width, tops accumulate the heights, and
every entry is marked with the Left and Right sides. -/
def playlistStack (width : Int) (top : Int) : List QSizeM → List GroupMediaLayout
  | [] => []
  | s :: rest =>
    { geometry := ⟨0, top, width, s.h⟩,
      sides := ⟨true, true, false, false⟩ }
      :: playlistStack width (top + s.h) rest

/-- Models `result.front().sides |= RectPart::Top`. -/
def markTopFirst : List GroupMediaLayout → List GroupMediaLayout
  | [] => []
  | l :: rest => { l with sides := { l.sides with top := true } } :: rest

/-- Models `result.back().sides |= RectPart::Bottom`. -/
def markBottomLast : List GroupMediaLayout → List GroupMediaLayout
  | [] => []
  | [l] => [{ l with sides := { l.sides with bottom := true } }]
  | l :: rest => l :: markBottomLast rest

/-- Embedding of `LayoutPlaylist` (source lines 27-48): stack the sizes at the
shared maximal width with zero vertical gap, then add the Top side to the
first rectangle and the Bottom side to the last.  The source function demands
a non-empty input (`Expects`); on the empty list this model returns `[]`. -/
def LayoutPlaylist (sizes : List QSizeM) : List GroupMediaLayout :=
  markBottomLast (markTopFirst (playlistStack (playlistWidth sizes) 0 sizes))

/-- The kind information of an underlying document, as queried by
`DetectMode`. -/
structure Document where
  isVideoFile : Bool
deriving DecidableEq, Inhabited, Repr

/-- One candidate media descriptor: the identity of its owning history item
(`media->parent()`) and its optional document. -/
structure Media where
  parent : Int
  document : Option Document
deriving DecidableEq, Inhabited, Repr

/-- The two layout modes of a group. -/
inductive Mode where
  | grid
  | column
deriving DecidableEq, Inhabited, Repr

/-- One member of a group, modelling `GroupedMedia::Part`.  The content
delegate created by `media->createView` is external; it is modelled by the
media record it renders together with its delegated measuring capabilities
(`maxWidth`, `sizeForGrouping`, `sizeForGroupingOptimal`) as opaque
function-valued fields. -/
structure Part where
  item : Int
  media : Media
  contentMaxWidth : Int
  sizeForGrouping : Int → Bool → QSizeM
  sizeForGroupingOptimal : Int → Bool → QSizeM
  initialGeometry : QRectM
  sides : Sides
  geometry : QRectM

instance : Inhabited Part :=
  ⟨{ item := 0, media := { parent := 0, document := none }, contentMaxWidth := 0,
     sizeForGrouping := fun _ _ => ⟨0, 0⟩,
     sizeForGroupingOptimal := fun _ _ => ⟨0, 0⟩,
     initialGeometry := ⟨0, 0, 0, 0⟩,
     sides := ⟨false, false, false, false⟩,
     geometry := ⟨0, 0, 0, 0⟩ }⟩

/-- The caption attached to the group as a whole; its text measurement
(`countHeight`) is delegated to the external text engine. -/
structure Caption where
  isEmpty : Bool
  countHeight : Int → Int

/-- Style constants used by the sizing engine, modelled as an explicit
configuration record as the specification's design notes direct. -/
structure Config where
  historyGroupWidthMax : Int
  historyGroupWidthMin : Int
  historyGroupSkip : Int
  msgPaddingLeft : Int
  msgPaddingRight : Int
  msgPaddingBottom : Int
  mediaCaptionSkip : Int

/-- The mutable state of a `GroupedMedia` object that the embedded
operations read and update. -/
structure GroupState where
  mode : Mode
  parts : List Part
  caption : Caption
  isBubbleBottom : Bool

/-- Rounding of `std::round` applied to the exact fraction `a / b` with
`b` positive: half-way cases go away from zero.  For a nonnegative
numerator this is `floor(a / b + 1 / 2) = (2 a + b) / (2 b)` in floor
division, and a negative numerator is reflected through zero. -/
def roundDivAway (a b : Int) : Int :=
  if 0 ≤ a then (2 * a + b) / (2 * b) else -((2 * (-a) + b) / (2 * b))

/-- The scale closure of `countCurrentSize`:
`scale(v) = int(std::round(v * (newWidth / float64(maxW))))`, modelled by
the exact rational value `round(v * newWidth / maxW)` (the specification
itself describes the factor as the real quotient `targetWidth /
naturalMaxWidth`). -/
def scaleValue (newWidth maxW v : Int) : Int :=
  roundDivAway (v * newWidth) maxW

/-- The per-member proportional rescale of the grid branch of
`countCurrentSize` (source lines 170-197): scale left and top directly and
scale the gap-inclusive right/bottom edge, then subtract the rescaled
spacing back out when the member does not touch the right/bottom outer
edge. -/
def rescalePart (cfg : Config) (newWidth maxW : Int) (p : Part) : QRectM :=
  let initialSpacing := cfg.historyGroupSkip
  let spacing := scaleValue newWidth maxW initialSpacing
  let needRightSkip := !p.sides.right
  let needBottomSkip := !p.sides.bottom
  let initialLeft := p.initialGeometry.x
  let initialTop := p.initialGeometry.y
  let initialRight := initialLeft + p.initialGeometry.w
    + (if needRightSkip then initialSpacing else 0)
  let initialBottom := initialTop + p.initialGeometry.h
    + (if needBottomSkip then initialSpacing else 0)
  let left := scaleValue newWidth maxW initialLeft
  let top := scaleValue newWidth maxW initialTop
  let width := scaleValue newWidth maxW initialRight - left
    - (if needRightSkip then spacing else 0)
  let height := scaleValue newWidth maxW initialBottom - top
    - (if needBottomSkip then spacing else 0)
  ⟨left, top, width, height⟩

/-- The column-mode loop of `countCurrentSize` (source lines 159-168):
assigns every member the geometry `(0, top, newWidth, size.height)` where
`size = sizeForGrouping(newWidth, last)` and accumulates the tops; returns
the updated members and the final accumulated top. -/
def columnLayout (newWidth : Int) (top : Int) : List Part → List Part × Int
  | [] => ([], top)
  | p :: rest =>
    let size := p.sizeForGrouping newWidth rest.isEmpty
    let r := columnLayout newWidth (top + size.h) rest
    ({ p with geometry := ⟨0, top, newWidth, size.h⟩ } :: r.1, r.2)

/-- Accumulation `accumulate_max(newHeight, top + height)` of the grid
branch over the freshly rescaled members. -/
def gridNewHeight (parts : List Part) : Int :=
  parts.foldl (fun acc p => max acc (p.geometry.y + p.geometry.h)) 0

/-- The caption contribution to the group height (source lines 202-208 and
144-150): zero for an empty caption, otherwise the caption gap plus the
caption height at the padded width, plus the bottom padding when the group
is the bubble bottom. -/
def captionAddition (cfg : Config) (st : GroupState) (w : Int) : Int :=
  if st.caption.isEmpty then 0
  else cfg.mediaCaptionSkip
    + st.caption.countHeight (w - cfg.msgPaddingLeft - cfg.msgPaddingRight)
    + (if st.isBubbleBottom then cfg.msgPaddingBottom else 0)

/-- Embedding of `GroupedMedia::countCurrentSize` (source lines 154-211).
`maxW` is the stored natural `maxWidth()` computed by the last optimal-size
pass.  Returns the resulting size together with the members carrying their
updated current geometry. -/
def countCurrentSize (cfg : Config) (st : GroupState) (maxW newWidth0 : Int) :
    QSizeM × List Part :=
  let newWidth := min newWidth0 maxW
  if st.mode = Mode.grid ∧ newWidth < cfg.historyGroupWidthMin then
    (⟨newWidth, 0⟩, st.parts)
  else if st.mode = Mode.column then
    let r := columnLayout newWidth 0 st.parts
    (⟨newWidth, r.2 + captionAddition cfg st newWidth⟩, r.1)
  else
    let parts := st.parts.map fun p =>
      { p with geometry := rescalePart cfg newWidth maxW p }
    (⟨newWidth, gridNewHeight parts + captionAddition cfg st newWidth⟩, parts)

/-- Scaling at the natural width is the identity: the factor is
`maxW / maxW = 1`. -/
theorem scaleValue_self (maxW v : Int) (h : 0 < maxW) :
    scaleValue maxW maxW v = v := by
  rcases le_or_lt 0 v with hv | hv
  · have ha : 0 ≤ v * maxW := mul_nonneg hv h.le
    have : 2 * (v * maxW) + maxW = maxW * (2 * v + 1) := by ring
    rw [scaleValue, roundDivAway, if_pos ha, this,
      show 2 * maxW = maxW * 2 by ring, Int.mul_ediv_mul_of_pos _ _ h]
    omega
  · have ha : ¬ 0 ≤ v * maxW := by
      simp only [not_le]
      exact mul_neg_of_neg_of_pos hv h
    have : 2 * (-(v * maxW)) + maxW = maxW * (2 * (-v) + 1) := by ring
    rw [scaleValue, roundDivAway, if_neg ha, this,
      show 2 * maxW = maxW * 2 by ring, Int.mul_ediv_mul_of_pos _ _ h]
    omega

/-- The rounding of a fraction with positive denominator is monotone in the
numerator. -/
theorem roundDivAway_mono (a1 a2 b : Int) (hb : 0 < b) (h : a1 ≤ a2) :
    roundDivAway a1 b ≤ roundDivAway a2 b := by
  have hb2 : (0 : Int) < 2 * b := by omega
  rcases le_or_lt 0 a1 with h1 | h1 <;> rcases le_or_lt 0 a2 with h2 | h2
  · rw [roundDivAway, if_pos h1, roundDivAway, if_pos h2]
    exact Int.ediv_le_ediv hb2 (by omega)
  · omega
  · rw [roundDivAway, if_neg (by omega), roundDivAway, if_pos h2]
    have hL : (2 * (-a1) + b) / (2 * b) ≥ 0 :=
      Int.ediv_nonneg (by omega) (by omega)
    have hR : (2 * a2 + b) / (2 * b) ≥ 0 :=
      Int.ediv_nonneg (by omega) (by omega)
    omega
  · rw [roundDivAway, if_neg (by omega), roundDivAway, if_neg (by omega)]
    have := Int.ediv_le_ediv hb2 (show 2 * (-a2) + b ≤ 2 * (-a1) + b by omega)
    omega

/-- The scale function is monotone in the target width on nonnegative
values. -/
theorem scaleValue_mono (maxW v w1 w2 : Int) (hM : 0 < maxW) (hv : 0 ≤ v)
    (h12 : w1 ≤ w2) : scaleValue w1 maxW v ≤ scaleValue w2 maxW v :=
  roundDivAway_mono _ _ _ hM (by nlinarith)

/-- Rescaling a member by the factor `maxW / maxW = 1` reproduces its
initial geometry exactly. -/
theorem rescalePart_self (cfg : Config) (maxW : Int) (p : Part)
    (h : 0 < maxW) : rescalePart cfg maxW maxW p = p.initialGeometry := by
  obtain ⟨item, media, cmw, f1, f2, ig, sides, geom⟩ := p
  obtain ⟨gx, gy, gw, gh⟩ := ig
  obtain ⟨sl, sr, stp, sb⟩ := sides
  simp only [rescalePart, scaleValue_self _ _ h]
  cases sr <;> cases sb <;> simp [QRectM.mk.injEq] <;> omega

/-- The scaled left edge of a rescaled member is the scaled initial left
edge. -/
theorem rescalePart_x (cfg : Config) (w maxW : Int) (p : Part) :
    (rescalePart cfg w maxW p).x = scaleValue w maxW p.initialGeometry.x :=
  rfl

/-- The scaled top edge of a rescaled member is the scaled initial top
edge. -/
theorem rescalePart_y (cfg : Config) (w maxW : Int) (p : Part) :
    (rescalePart cfg w maxW p).y = scaleValue w maxW p.initialGeometry.y :=
  rfl

/-- The gap-inclusive right edge of a rescaled member is the scaled
gap-inclusive initial right edge: the spacing subtraction cancels. -/
theorem rescalePart_right_edge (cfg : Config) (w maxW : Int) (p : Part) :
    (rescalePart cfg w maxW p).x + (rescalePart cfg w maxW p).w
      + (if p.sides.right then 0 else scaleValue w maxW cfg.historyGroupSkip)
    = scaleValue w maxW (p.initialGeometry.x + p.initialGeometry.w
      + (if p.sides.right then 0 else cfg.historyGroupSkip)) := by
  cases hsr : p.sides.right <;> simp [rescalePart, hsr]
  ring_nf

/-- The gap-inclusive bottom edge of a rescaled member is the scaled
gap-inclusive initial bottom edge: the spacing subtraction cancels. -/
theorem rescalePart_bottom_edge (cfg : Config) (w maxW : Int) (p : Part) :
    (rescalePart cfg w maxW p).y + (rescalePart cfg w maxW p).h
      + (if p.sides.bottom then 0 else scaleValue w maxW cfg.historyGroupSkip)
    = scaleValue w maxW (p.initialGeometry.y + p.initialGeometry.h
      + (if p.sides.bottom then 0 else cfg.historyGroupSkip)) := by
  cases hsb : p.sides.bottom <;> simp [rescalePart, hsb]
  ring_nf

/-- C1: for a grid-mode group whose natural width is positive and at least
the grid minimum, recomputing the current size at a target width equal to
the natural maximum width reproduces every member's initial geometry
exactly (the factor is one and the round-scale-subtract-spacing arithmetic
is the identity on integers). -/
theorem claim_C1_rescale_identity (cfg : Config) (st : GroupState)
    (maxW : Int) (hmode : st.mode = Mode.grid) (hpos : 0 < maxW)
    (hmin : cfg.historyGroupWidthMin ≤ maxW) :
    (countCurrentSize cfg st maxW maxW).2
      = st.parts.map fun p => { p with geometry := p.initialGeometry } := by
  simp only [countCurrentSize, min_self, hmode]
  rw [if_neg (by rintro ⟨-, hlt⟩; omega), if_neg (by simp)]
  exact List.map_congr_left fun p _ => by rw [rescalePart_self cfg maxW p hpos]

/-- Example style configuration used by concrete witnesses; the values for
the minimum and maximum grid widths and the grid skip follow the style
table. -/
def cfgW : Config :=
  { historyGroupWidthMax := 430, historyGroupWidthMin := 108,
    historyGroupSkip := 4, msgPaddingLeft := 13, msgPaddingRight := 13,
    msgPaddingBottom := 8, mediaCaptionSkip := 5 }

/-- An empty caption. -/
def emptyCaption : Caption := { isEmpty := true, countHeight := fun _ => 0 }

/-- A concrete grid member touching all outer edges but the bottom one. -/
def partTall : Part :=
  { item := 1, media := { parent := 1, document := none },
    contentMaxWidth := 0,
    sizeForGrouping := fun _ _ => ⟨0, 0⟩,
    sizeForGroupingOptimal := fun _ _ => ⟨0, 0⟩,
    initialGeometry := ⟨0, 0, 120, 80⟩,
    sides := ⟨true, true, true, false⟩,
    geometry := ⟨0, 0, 0, 0⟩ }

/-- A concrete grid member touching all outer edges but the top one. -/
def partShort : Part :=
  { item := 2, media := { parent := 2, document := none },
    contentMaxWidth := 0,
    sizeForGrouping := fun _ _ => ⟨0, 0⟩,
    sizeForGroupingOptimal := fun _ _ => ⟨0, 0⟩,
    initialGeometry := ⟨0, 84, 120, 40⟩,
    sides := ⟨true, true, false, true⟩,
    geometry := ⟨0, 0, 0, 0⟩ }

/-- A concrete two-member grid-mode group with natural width 120. -/
def stIdentity : GroupState :=
  { mode := Mode.grid, parts := [partTall, partShort],
    caption := emptyCaption, isBubbleBottom := false }

theorem claim_C1_rescale_identity_witness :
    stIdentity.mode = Mode.grid ∧ (0 : Int) < 120 ∧
    cfgW.historyGroupWidthMin ≤ 120 ∧
    (countCurrentSize cfgW stIdentity 120 120).2
      = stIdentity.parts.map fun p => { p with geometry := p.initialGeometry } :=
  ⟨rfl, by decide, by decide,
    claim_C1_rescale_identity cfgW stIdentity 120 rfl (by decide) (by decide)⟩

/-- A wide grid member with a reserved bottom gap; its rescaled height is
`round(7 w / 200) - round(4 w / 200)`, which is not monotone in `w`. -/
def partWide : Part :=
  { item := 3, media := { parent := 3, document := none },
    contentMaxWidth := 0,
    sizeForGrouping := fun _ _ => ⟨0, 0⟩,
    sizeForGroupingOptimal := fun _ _ => ⟨0, 0⟩,
    initialGeometry := ⟨0, 0, 200, 3⟩,
    sides := ⟨true, true, true, false⟩,
    geometry := ⟨0, 0, 0, 0⟩ }

/-- A single-member grid-mode group of natural width 200 whose member does
not touch the bottom outer edge. -/
def stRoundTrap : GroupState :=
  { mode := Mode.grid, parts := [partWide],
    caption := emptyCaption, isBubbleBottom := false }

/-- C2 is false as stated: for the grid-mode group `stRoundTrap` of natural
width 200, both target widths 124 and 125 are within the allowed range, yet
the total height computed at the smaller width 124 is 2 while at 125 it is
1 — reducing the target width from 125 to 124 increases the group's total
height, because the per-edge rounding in `scale` is applied separately to
the gap-inclusive bottom edge and to the spacing. -/
theorem claim_C2_counterexample :
    stRoundTrap.mode = Mode.grid ∧
    cfgW.historyGroupWidthMin ≤ 124 ∧ (124 : Int) < 125 ∧ (125 : Int) ≤ 200 ∧
    (countCurrentSize cfgW stRoundTrap 200 124).1.h = 2 ∧
    (countCurrentSize cfgW stRoundTrap 200 125).1.h = 1 := by
  refine ⟨rfl, by decide, by decide, by decide, ?_, ?_⟩ <;> decide

/-- C2 (amended): reducing the target width never increases a member's
scaled left or top edge, nor its gap-inclusive right or bottom edge (the
scale function is monotone in the target width); the member's rectangle
width and height themselves are differences of independently rounded
values and can grow by a pixel when the target width shrinks, as the
counterexample shows. -/
theorem claim_C2_amended_edges_monotone (cfg : Config) (p : Part)
    (maxW w1 w2 : Int) (hM : 0 < maxW) (h12 : w1 ≤ w2)
    (hx : 0 ≤ p.initialGeometry.x) (hy : 0 ≤ p.initialGeometry.y)
    (hr : 0 ≤ p.initialGeometry.x + p.initialGeometry.w
      + (if p.sides.right then 0 else cfg.historyGroupSkip))
    (hb : 0 ≤ p.initialGeometry.y + p.initialGeometry.h
      + (if p.sides.bottom then 0 else cfg.historyGroupSkip)) :
    (rescalePart cfg w1 maxW p).x ≤ (rescalePart cfg w2 maxW p).x ∧
    (rescalePart cfg w1 maxW p).y ≤ (rescalePart cfg w2 maxW p).y ∧
    (rescalePart cfg w1 maxW p).x + (rescalePart cfg w1 maxW p).w
        + (if p.sides.right then 0 else scaleValue w1 maxW cfg.historyGroupSkip)
      ≤ (rescalePart cfg w2 maxW p).x + (rescalePart cfg w2 maxW p).w
        + (if p.sides.right then 0 else scaleValue w2 maxW cfg.historyGroupSkip) ∧
    (rescalePart cfg w1 maxW p).y + (rescalePart cfg w1 maxW p).h
        + (if p.sides.bottom then 0 else scaleValue w1 maxW cfg.historyGroupSkip)
      ≤ (rescalePart cfg w2 maxW p).y + (rescalePart cfg w2 maxW p).h
        + (if p.sides.bottom then 0 else scaleValue w2 maxW cfg.historyGroupSkip) := by
  refine ⟨?_, ?_, ?_, ?_⟩
  · rw [rescalePart_x, rescalePart_x]
    exact scaleValue_mono _ _ _ _ hM hx h12
  · rw [rescalePart_y, rescalePart_y]
    exact scaleValue_mono _ _ _ _ hM hy h12
  · rw [rescalePart_right_edge, rescalePart_right_edge]
    exact scaleValue_mono _ _ _ _ hM hr h12
  · rw [rescalePart_bottom_edge, rescalePart_bottom_edge]
    exact scaleValue_mono _ _ _ _ hM hb h12

theorem claim_C2_amended_edges_monotone_witness :
    (0 : Int) < 200 ∧ (124 : Int) ≤ 125 ∧
    (0 : Int) ≤ partWide.initialGeometry.x ∧
    (0 : Int) ≤ partWide.initialGeometry.y ∧
    (0 : Int) ≤ partWide.initialGeometry.x + partWide.initialGeometry.w
      + (if partWide.sides.right then 0 else cfgW.historyGroupSkip) ∧
    (0 : Int) ≤ partWide.initialGeometry.y + partWide.initialGeometry.h
      + (if partWide.sides.bottom then 0 else cfgW.historyGroupSkip) ∧
    ((rescalePart cfgW 124 200 partWide).x ≤ (rescalePart cfgW 125 200 partWide).x ∧
     (rescalePart cfgW 124 200 partWide).y ≤ (rescalePart cfgW 125 200 partWide).y ∧
     (rescalePart cfgW 124 200 partWide).x + (rescalePart cfgW 124 200 partWide).w
         + (if partWide.sides.right then 0 else scaleValue 124 200 cfgW.historyGroupSkip)
       ≤ (rescalePart cfgW 125 200 partWide).x + (rescalePart cfgW 125 200 partWide).w
         + (if partWide.sides.right then 0 else scaleValue 125 200 cfgW.historyGroupSkip) ∧
     (rescalePart cfgW 124 200 partWide).y + (rescalePart cfgW 124 200 partWide).h
         + (if partWide.sides.bottom then 0 else scaleValue 124 200 cfgW.historyGroupSkip)
       ≤ (rescalePart cfgW 125 200 partWide).y + (rescalePart cfgW 125 200 partWide).h
         + (if partWide.sides.bottom then 0 else scaleValue 125 200 cfgW.historyGroupSkip)) :=
  ⟨by decide, by decide, by decide, by decide, by decide, by decide,
    claim_C2_amended_edges_monotone cfgW partWide 200 124 125 (by decide)
      (by decide) (by decide) (by decide) (by decide) (by decide)⟩

/-- The stacking loop of `LayoutPlaylist` is length-preserving. -/
theorem playlistStack_length (w t : Int) (sizes : List QSizeM) :
    (playlistStack w t sizes).length = sizes.length := by
  induction sizes generalizing t with
  | nil => rfl
  | cons s rest ih => simp [playlistStack, ih]

/-- Entry description of the stacking loop: entry `i` sits at x = 0 below
the sum of the preceding heights, spans the shared width, and carries the
Left and Right sides only. -/
theorem playlistStack_getD (w t : Int) (sizes : List QSizeM) (i : Nat)
    (hi : i < sizes.length) :
    (playlistStack w t sizes).getD i default
      = { geometry := ⟨0, t + ((sizes.take i).map QSizeM.h).sum, w,
            (sizes.getD i default).h⟩,
          sides := ⟨true, true, false, false⟩ } := by
  induction sizes generalizing t i with
  | nil => simp at hi
  | cons s rest ih =>
    cases i with
    | zero => simp [playlistStack]
    | succ n =>
      have hn : n < rest.length := by simpa using hi
      simp only [playlistStack, List.getD_cons_succ, List.take_succ_cons,
        List.map_cons, List.sum_cons, ih (t + s.h) n hn]
      congr 2
      ring

/-- Marking the first entry with Top preserves the length. -/
theorem markTopFirst_length (l : List GroupMediaLayout) :
    (markTopFirst l).length = l.length := by
  cases l <;> rfl

/-- Marking the last entry with Bottom preserves the length. -/
theorem markBottomLast_length (l : List GroupMediaLayout) :
    (markBottomLast l).length = l.length := by
  induction l with
  | nil => rfl
  | cons x rest ih =>
    cases rest with
    | nil => rfl
    | cons y ys => simpa [markBottomLast] using ih

/-- Entry description after marking the first entry with Top. -/
theorem markTopFirst_getD (l : List GroupMediaLayout) (i : Nat)
    (hi : i < l.length) :
    (markTopFirst l).getD i default
      = if i = 0
        then { l.getD 0 default with
               sides := { (l.getD 0 default).sides with top := true } }
        else l.getD i default := by
  cases l with
  | nil => simp at hi
  | cons x rest => cases i <;> simp [markTopFirst]

/-- Entry description after marking the last entry with Bottom. -/
theorem markBottomLast_getD (l : List GroupMediaLayout) (i : Nat)
    (hi : i < l.length) :
    (markBottomLast l).getD i default
      = if i = l.length - 1
        then { l.getD i default with
               sides := { (l.getD i default).sides with bottom := true } }
        else l.getD i default := by
  induction l generalizing i with
  | nil => simp at hi
  | cons x rest ih =>
    cases rest with
    | nil =>
      cases i with
      | zero => simp [markBottomLast]
      | succ n => simp at hi
    | cons y ys =>
      cases i with
      | zero => simp [markBottomLast]
      | succ n =>
        have hn : n < (y :: ys).length := by simpa using hi
        rw [show markBottomLast (x :: y :: ys)
            = x :: markBottomLast (y :: ys) from rfl,
          List.getD_cons_succ, ih n hn]
        by_cases h : n = (y :: ys).length - 1
        · rw [if_pos h, if_pos (by simp only [List.length_cons] at h ⊢; omega),
            List.getD_cons_succ]
        · rw [if_neg h, if_neg (by simp only [List.length_cons] at h ⊢; omega),
            List.getD_cons_succ]

/-- Full entry description of `LayoutPlaylist`: geometry from the stacking
loop, Left and Right everywhere, Top exactly on the first entry and
Bottom exactly on the last. -/
theorem LayoutPlaylist_getD (sizes : List QSizeM) (i : Nat)
    (hi : i < sizes.length) :
    (LayoutPlaylist sizes).getD i default
      = { geometry := ⟨0, ((sizes.take i).map QSizeM.h).sum,
            playlistWidth sizes, (sizes.getD i default).h⟩,
          sides := ⟨true, true, decide (i = 0),
            decide (i = sizes.length - 1)⟩ } := by
  have hlen1 : (playlistStack (playlistWidth sizes) 0 sizes).length
      = sizes.length := playlistStack_length _ _ _
  have hlen2 : (markTopFirst (playlistStack (playlistWidth sizes) 0 sizes)).length
      = sizes.length := by rw [markTopFirst_length, hlen1]
  have h0 : 0 < sizes.length := Nat.pos_of_ne_zero (by
    intro h
    rw [List.length_eq_zero] at h
    subst h
    simp at hi)
  rw [LayoutPlaylist, markBottomLast_getD _ i (by rw [hlen2]; exact hi), hlen2,
    markTopFirst_getD _ i (by rw [hlen1]; exact hi),
    playlistStack_getD (playlistWidth sizes) 0 sizes i hi,
    playlistStack_getD (playlistWidth sizes) 0 sizes 0 h0]
  by_cases h : i = 0 <;> by_cases h' : i = sizes.length - 1 <;>
    simp_all [QRectM.mk.injEq]

/-- Sums of strictly positive heights over strictly growing prefixes grow
strictly. -/
theorem sum_take_lt_sum_take (hs : List Int) (hpos : ∀ x ∈ hs, 0 < x)
    (i j : Nat) (hij : i < j) (hj : j ≤ hs.length) :
    (hs.take i).sum < (hs.take j).sum := by
  have hsplit : hs.take j = hs.take i ++ (hs.drop i).take (j - i) := by
    rw [← List.take_add]
    congr 1
    omega
  rw [hsplit, List.sum_append]
  have hne : (hs.drop i).take (j - i) ≠ [] := by
    intro h
    have := congrArg List.length h
    simp only [List.length_take, List.length_drop, List.length_nil] at this
    omega
  have hmem : ∀ x ∈ (hs.drop i).take (j - i), 0 < x := fun x hx =>
    hpos x (List.drop_subset i hs (List.take_subset _ _ hx))
  have := List.sum_pos _ hmem hne
  omega

/-- C3 is false as stated on a size list containing a zero height: the
first two stacked tops coincide, so the tops are not strictly
increasing. -/
theorem claim_C3_counterexample :
    ([⟨10, 0⟩, ⟨10, 5⟩] : List QSizeM) ≠ [] ∧
    ¬ (((LayoutPlaylist [⟨10, 0⟩, ⟨10, 5⟩]).getD 0 default).geometry.y
        < ((LayoutPlaylist [⟨10, 0⟩, ⟨10, 5⟩]).getD 1 default).geometry.y) := by
  refine ⟨by decide, by decide⟩

/-- C3 (amended): for every non-empty size list, `LayoutPlaylist` returns
one rectangle per input at x = 0 with width the maximal input width, tops
stacked gap-free starting at 0 (each top is the sum of the preceding
heights), all rectangles carrying Left and Right, the first additionally
Top and the last additionally Bottom; the tops are strictly increasing
provided every input height is positive (a zero or negative height makes
consecutive tops coincide or decrease, as the counterexample shows). -/
theorem claim_C3_playlist_layout (sizes : List QSizeM) (hne : sizes ≠ []) :
    (LayoutPlaylist sizes).length = sizes.length ∧
    (∀ i, i < sizes.length →
      ((LayoutPlaylist sizes).getD i default).geometry
        = ⟨0, ((sizes.take i).map QSizeM.h).sum, playlistWidth sizes,
            (sizes.getD i default).h⟩ ∧
      ((LayoutPlaylist sizes).getD i default).sides.left = true ∧
      ((LayoutPlaylist sizes).getD i default).sides.right = true) ∧
    ((LayoutPlaylist sizes).getD 0 default).sides.top = true ∧
    ((LayoutPlaylist sizes).getD (sizes.length - 1) default).sides.bottom
      = true ∧
    ((∀ s ∈ sizes, 0 < s.h) → ∀ i j, i < j → j < sizes.length →
      ((LayoutPlaylist sizes).getD i default).geometry.y
        < ((LayoutPlaylist sizes).getD j default).geometry.y) := by
  have h0 : 0 < sizes.length := List.length_pos.mpr hne
  refine ⟨?_, ?_, ?_, ?_, ?_⟩
  · rw [LayoutPlaylist, markBottomLast_length, markTopFirst_length,
      playlistStack_length]
  · intro i hi
    rw [LayoutPlaylist_getD sizes i hi]
    exact ⟨rfl, rfl, rfl⟩
  · rw [LayoutPlaylist_getD sizes 0 h0]
    simp
  · rw [LayoutPlaylist_getD sizes (sizes.length - 1) (by omega)]
    simp
  · intro hpos i j hij hj
    rw [LayoutPlaylist_getD sizes i (by omega), LayoutPlaylist_getD sizes j hj]
    simp only []
    have : ∀ k, (sizes.take k).map QSizeM.h = (sizes.map QSizeM.h).take k :=
      fun k => List.map_take QSizeM.h sizes k
    rw [this i, this j]
    exact sum_take_lt_sum_take _ (by
        intro x hx
        obtain ⟨s, hs, rfl⟩ := List.mem_map.mp hx
        exact hpos s hs) i j hij (by simpa using Nat.le_of_lt hj)

theorem claim_C3_playlist_layout_witness :
    ([⟨3, 5⟩, ⟨7, 2⟩] : List QSizeM) ≠ [] ∧
    (LayoutPlaylist [⟨3, 5⟩, ⟨7, 2⟩]).length
      = ([⟨3, 5⟩, ⟨7, 2⟩] : List QSizeM).length :=
  ⟨by decide, (claim_C3_playlist_layout [⟨3, 5⟩, ⟨7, 2⟩] (by decide)).1⟩

/-- Embedding of `GroupedMedia::DetectMode` (source lines 95-100): Column
when the media is a document that is not a video file, Grid otherwise. -/
def DetectMode (m : Media) : Mode :=
  match m.document with
  | some d => if !d.isVideoFile then Mode.column else Mode.grid
  | none => Mode.grid

/-- The `Part` constructor (source lines 52-58): the item identity is the
owning record of the media, and a fresh content delegate is created from
the media.  Delegate-dependent measuring fields are inert defaults, since
the construction claims depend only on identities and media kinds; the
geometry fields are default-constructed as in a fresh `QRect`. -/
def mkPart (m : Media) : Part :=
  { item := m.parent, media := m, contentMaxWidth := 0,
    sizeForGrouping := fun _ _ => ⟨0, 0⟩,
    sizeForGroupingOptimal := fun _ _ => ⟨0, 0⟩,
    initialGeometry := ⟨0, 0, 0, 0⟩,
    sides := ⟨false, false, false, false⟩,
    geometry := ⟨0, 0, 0, 0⟩ }

/-- Embedding of `GroupedMedia::validateGroupParts` (source lines 449-461):
walk the candidate medias with an index into the current members, failing
on an identity mismatch or when the candidates outrun the members, and
finally require the index to have consumed all members. -/
def validateGroupParts : List Part → List Media → Bool
  | ps, [] => ps.isEmpty
  | [], _ :: _ => false
  | p :: ps, m :: ms => decide (p.item = m.parent) && validateGroupParts ps ms

/-- The group mode after the rebuild loop of `applyGroup`: fixed from the
first candidate, or left unchanged when there is no candidate. -/
def rebuiltMode (st : GroupState) : List Media → Mode
  | [] => st.mode
  | m :: _ => DetectMode m

/-- The member list after the rebuild loop of `applyGroup`: the previous
members (never cleared) followed by a fresh `Part` for the first candidate
(which fixes the mode) and for every later candidate whose detected mode
equals the first one's; mode-mismatched candidates are skipped. -/
def rebuiltParts (st : GroupState) : List Media → List Part
  | [] => st.parts
  | m :: ms =>
    st.parts
      ++ mkPart m :: (ms.filter fun x => decide (DetectMode x = DetectMode m)).map mkPart

/-- Embedding of `GroupedMedia::applyGroup` (source lines 424-447).  When
validation succeeds the state is returned untouched.  Otherwise the rebuild
loop runs: the mode is fixed from the first candidate, candidates of a
different detected mode are skipped, and a fresh `Part` is appended for
every accepted candidate.  Note that the loop appends to the existing
member list without clearing it (there is no `_parts.clear()` in the
source); the final emptiness check therefore sees the old members too. -/
def applyGroup (st : GroupState) (medias : List Media) : Bool × GroupState :=
  if validateGroupParts st.parts medias then (true, st)
  else
    let st2 := { st with mode := rebuiltMode st medias,
                         parts := rebuiltParts st medias }
    if (rebuiltParts st medias).isEmpty then (false, st2) else (true, st2)

/-- Pointwise identity match implies successful validation. -/
theorem validateGroupParts_of_match (ps : List Part) (ms : List Media)
    (h : ps.map Part.item = ms.map Media.parent) :
    validateGroupParts ps ms = true := by
  induction ps generalizing ms with
  | nil =>
    cases ms with
    | nil => rfl
    | cons m ms => simp at h
  | cons p ps ih =>
    cases ms with
    | nil => simp at h
    | cons m ms =>
      simp only [List.map_cons, List.cons.injEq] at h
      simp [validateGroupParts, h.1, ih ms h.2]

/-- C4: when the candidate sequence has the same length as the current
member list and the owning-record identities match element by element in
order, `applyGroup` reports success and returns the state completely
unchanged: no member is removed or added and no content delegate (`Part`)
is constructed. -/
theorem claim_C4_reuse_unchanged (st : GroupState) (medias : List Media)
    (hmatch : st.parts.map Part.item = medias.map Media.parent) :
    applyGroup st medias = (true, st) := by
  rw [applyGroup, if_pos (validateGroupParts_of_match _ _ hmatch)]

/-- A two-member group state whose member identities are 1 and 2. -/
def stReuse : GroupState :=
  { mode := Mode.grid, parts := [partTall, partShort],
    caption := emptyCaption, isBubbleBottom := false }

theorem claim_C4_reuse_unchanged_witness :
    stReuse.parts.map Part.item
      = [Media.mk 1 none, Media.mk 2 none].map Media.parent ∧
    applyGroup stReuse [Media.mk 1 none, Media.mk 2 none] = (true, stReuse) :=
  ⟨by decide, claim_C4_reuse_unchanged stReuse _ (by decide)⟩

/-- A group state with no members at all, as both constructors start
with. -/
def stFresh : GroupState :=
  { mode := Mode.grid, parts := [], caption := emptyCaption,
    isBubbleBottom := false }

/-- C5 is false as stated: calling `applyGroup` with an empty candidate
list on a group with no members (exactly the constructor situation when
the supplied media vector is empty) succeeds while leaving the member list
empty — the validation loop trivially matches zero candidates against zero
members, so the rebuild (whose emptiness check would fail) is never
reached, and success is reported with an empty member list. -/
theorem claim_C5_counterexample :
    (applyGroup stFresh []).1 = true ∧ (applyGroup stFresh []).2.parts = [] :=
  ⟨rfl, rfl⟩

/-- C5 (amended): `applyGroup` never returns failure.  When validation
fails and the candidate list is non-empty, the first candidate is always
accepted (it fixes the mode), so the rebuilt member list — which is
appended to the uncleared previous members — is non-empty; when validation
fails on an empty candidate list the previous members were necessarily
non-empty; and when validation succeeds the call reports success
directly, even in the only zero-member scenario (empty candidates on an
empty group), where success is reported with an empty member list. -/
theorem claim_C5_applyGroup_never_fails (st : GroupState)
    (medias : List Media) :
    (applyGroup st medias).1 = true ∧
    (st.parts = [] → medias = [] → (applyGroup st medias).2.parts = []) := by
  constructor
  · rw [applyGroup]
    by_cases hv : validateGroupParts st.parts medias = true
    · rw [if_pos hv]
    · rw [if_neg hv]
      have hne : (rebuiltParts st medias).isEmpty = false := by
        cases medias with
        | nil =>
          cases hp : st.parts with
          | nil => exact absurd (by simp [hp, validateGroupParts]) hv
          | cons q qs => simp [rebuiltParts, hp]
        | cons m ms => cases st.parts <;> simp [rebuiltParts]
      simp [hne]
  · intro hp hm
    subst hm
    simp [applyGroup, hp, validateGroupParts]

theorem claim_C5_applyGroup_never_fails_witness :
    stFresh.parts = [] ∧
    (applyGroup stFresh []).1 = true ∧
    (applyGroup stFresh []).2.parts = [] :=
  ⟨rfl, (claim_C5_applyGroup_never_fails stFresh []).1,
    (claim_C5_applyGroup_never_fails stFresh []).2 rfl rfl⟩

/-- C6: on a rebuild from a group with no current members (the situation at
every call site, since `applyGroup` is invoked only by the constructors),
`DetectMode` classifies a candidate as Column exactly when it is a
document that is not a video file; the group's mode is set from the first
candidate, every later candidate whose detected mode differs is skipped
without error (the call still succeeds), and every member of the resulting
group has the same detected mode as the first candidate. -/
theorem claim_C6_mode_detection (st : GroupState) (m : Media)
    (ms : List Media) (hempty : st.parts = []) :
    (∀ x : Media, DetectMode x = Mode.column
      ↔ ∃ d, x.document = some d ∧ d.isVideoFile = false) ∧
    (applyGroup st (m :: ms)).1 = true ∧
    (applyGroup st (m :: ms)).2.mode = DetectMode m ∧
    (applyGroup st (m :: ms)).2.parts
      = mkPart m
        :: (ms.filter fun x => decide (DetectMode x = DetectMode m)).map mkPart ∧
    (∀ p ∈ (applyGroup st (m :: ms)).2.parts,
      DetectMode p.media = DetectMode m) := by
  have hv : validateGroupParts st.parts (m :: ms) = false := by
    rw [hempty]
    rfl
  have hr : rebuiltParts st (m :: ms)
      = mkPart m
        :: (ms.filter fun x => decide (DetectMode x = DetectMode m)).map mkPart := by
    simp only [rebuiltParts, hempty, List.nil_append]
  have happ : applyGroup st (m :: ms)
      = (true, { st with
          mode := DetectMode m
          parts := mkPart m :: (ms.filter fun x =>
            decide (DetectMode x = DetectMode m)).map mkPart }) := by
    rw [applyGroup, if_neg (by simp [hv]), hr]
    simp [rebuiltMode]
  refine ⟨?_, ?_, ?_, ?_, ?_⟩
  · intro x
    rcases hd : x.document with _ | d
    · simp [DetectMode, hd]
    · cases hb : d.isVideoFile <;> simp [DetectMode, hd, hb]
  · rw [happ]
  · rw [happ]
  · rw [happ]
  · rw [happ]
    intro p hp
    rcases List.mem_cons.mp hp with h | h
    · rw [h]
      rfl
    · obtain ⟨x, hx, rfl⟩ := List.mem_map.mp h
      exact of_decide_eq_true (List.mem_filter.mp hx).2

/-- A grouped-file media record (non-video document, Column mode). -/
def mediaFileA : Media := { parent := 10, document := some { isVideoFile := false } }

/-- A photo media record (no document, Grid mode). -/
def mediaPhotoB : Media := { parent := 11, document := none }

/-- Another grouped-file media record (non-video document, Column mode). -/
def mediaFileC : Media := { parent := 12, document := some { isVideoFile := false } }

theorem claim_C6_mode_detection_witness :
    stFresh.parts = [] ∧
    (applyGroup stFresh [mediaFileA, mediaPhotoB, mediaFileC]).2.parts
      = mkPart mediaFileA
        :: ([mediaPhotoB, mediaFileC].filter fun x =>
              decide (DetectMode x = DetectMode mediaFileA)).map mkPart :=
  ⟨rfl,
    (claim_C6_mode_detection stFresh mediaFileA [mediaPhotoB, mediaFileC]
      rfl).2.2.2.1⟩

/-- One merged vertical band, modelling `BubbleSelectionInterval`. -/
structure BubbleSelectionInterval where
  top : Int
  height : Int
deriving DecidableEq, Inhabited, Repr

/-- The loop of `getBubbleSelectionIntervals` (source lines 378-397).  The
result vector is accumulated in reverse so that the mutation of
`result.back()` becomes a head update; the caller re-reverses it. -/
def selectionLoop (sel : Nat → Bool) : Nat → List Part →
    List BubbleSelectionInterval → List BubbleSelectionInterval
  | _, [], acc => acc
  | i, p :: ps, acc =>
    if sel i then
      match acc with
      | [] => selectionLoop sel (i + 1) ps [⟨p.geometry.y, p.geometry.h⟩]
      | last :: rest =>
        if last.top + last.height < p.geometry.y
            ∨ last.top > p.geometry.y + p.geometry.h then
          selectionLoop sel (i + 1) ps
            (⟨p.geometry.y, p.geometry.h⟩ :: last :: rest)
        else
          let newTop := min last.top p.geometry.y
          let newHeight := max (last.top + last.height - newTop)
            (p.geometry.y + p.geometry.h - newTop)
          selectionLoop sel (i + 1) ps (⟨newTop, newHeight⟩ :: rest)
    else selectionLoop sel (i + 1) ps acc

/-- Models the final `result.back().height = height() - result.back().top`
assignment: replace the height of the last interval so that it ends at the
group's total height. -/
def stretchLast (totalHeight : Int) :
    List BubbleSelectionInterval → List BubbleSelectionInterval
  | [] => []
  | [l] => [⟨l.top, totalHeight - l.top⟩]
  | l :: rest => l :: stretchLast totalHeight rest

/-- Embedding of `GroupedMedia::getBubbleSelectionIntervals` (source lines
374-402).  The selection is modelled as a predicate on member indices
(the external `IsGroupItemSelection`), and the group's current total
height (`height()`) is a parameter. -/
def getBubbleSelectionIntervals (st : GroupState) (totalHeight : Int)
    (sel : Nat → Bool) : List BubbleSelectionInterval :=
  let result := (selectionLoop sel 0 st.parts []).reverse
  if sel (st.parts.length - 1) then stretchLast totalHeight result else result

/-- Overlap-or-touch test between the last open interval and a member
rectangle's vertical extent, as the claim words it: the closed ranges
intersect. -/
def overlapsOrTouches (last : BubbleSelectionInterval)
    (top height : Int) : Bool :=
  decide (top ≤ last.top + last.height) && decide (last.top ≤ top + height)

/-- The claim-worded counterpart of `selectionLoop`: start a new interval
at a selected member when the result is empty or the member's rectangle
neither overlaps nor touches the last interval vertically, otherwise merge
by extending the last interval to span from the minimum top to the maximum
bottom. -/
def selectionLoopSpec (sel : Nat → Bool) : Nat → List Part →
    List BubbleSelectionInterval → List BubbleSelectionInterval
  | _, [], acc => acc
  | i, p :: ps, acc =>
    if sel i then
      match acc with
      | [] => selectionLoopSpec sel (i + 1) ps [⟨p.geometry.y, p.geometry.h⟩]
      | last :: rest =>
        if overlapsOrTouches last p.geometry.y p.geometry.h then
          let newTop := min last.top p.geometry.y
          let newBottom := max (last.top + last.height)
            (p.geometry.y + p.geometry.h)
          selectionLoopSpec sel (i + 1) ps (⟨newTop, newBottom - newTop⟩ :: rest)
        else
          selectionLoopSpec sel (i + 1) ps
            (⟨p.geometry.y, p.geometry.h⟩ :: last :: rest)
    else selectionLoopSpec sel (i + 1) ps acc

/-- The claim-worded interval merger, including the final stretch of the
last interval when the last member is selected. -/
def bubbleSelectionIntervalsSpec (st : GroupState) (totalHeight : Int)
    (sel : Nat → Bool) : List BubbleSelectionInterval :=
  let result := (selectionLoopSpec sel 0 st.parts []).reverse
  if sel (st.parts.length - 1) then stretchLast totalHeight result else result

/-- The source loop and the claim-worded loop agree on every input: the
branch conditions are complementary and the merged intervals coincide. -/
theorem selectionLoop_eq_spec (sel : Nat → Bool) (ps : List Part) :
    ∀ (i : Nat) (acc : List BubbleSelectionInterval),
      selectionLoop sel i ps acc = selectionLoopSpec sel i ps acc := by
  induction ps with
  | nil => intro i acc; rfl
  | cons p rest ih =>
    intro i acc
    by_cases hsel : sel i
    · cases acc with
      | nil =>
        simp only [selectionLoop, selectionLoopSpec, hsel, if_true]
        exact ih _ _
      | cons last tail =>
        simp only [selectionLoop, selectionLoopSpec, hsel, if_true]
        by_cases hnew : last.top + last.height < p.geometry.y
            ∨ last.top > p.geometry.y + p.geometry.h
        · rw [if_pos hnew, if_neg (by simp [overlapsOrTouches]; omega)]
          exact ih _ _
        · rw [if_neg hnew, if_pos (by simp [overlapsOrTouches]; omega)]
          have hmax : max (last.top + last.height - min last.top p.geometry.y)
                (p.geometry.y + p.geometry.h - min last.top p.geometry.y)
              = max (last.top + last.height) (p.geometry.y + p.geometry.h)
                - min last.top p.geometry.y := by omega
          rw [hmax]
          exact ih _ _
    · simp only [selectionLoop, selectionLoopSpec, hsel, if_false,
        Bool.false_eq_true]
      exact ih _ _

/-- Stretching preserves the length. -/
theorem stretchLast_length (totalHeight : Int)
    (l : List BubbleSelectionInterval) :
    (stretchLast totalHeight l).length = l.length := by
  induction l with
  | nil => rfl
  | cons x rest ih =>
    cases rest with
    | nil => rfl
    | cons y ys => simpa [stretchLast] using ih

/-- After stretching, the last interval ends exactly at the total
height. -/
theorem stretchLast_getLast (totalHeight : Int)
    (l : List BubbleSelectionInterval) :
    ∀ iv ∈ (stretchLast totalHeight l).getLast?,
      iv.top + iv.height = totalHeight := by
  induction l with
  | nil => simp [stretchLast]
  | cons x rest ih =>
    cases rest with
    | nil =>
      simp [stretchLast]
    | cons y ys =>
      cases hz : stretchLast totalHeight (y :: ys) with
      | nil =>
        have := stretchLast_length totalHeight (y :: ys)
        rw [hz] at this
        simp at this
      | cons z zs =>
        rw [hz] at ih
        rw [show stretchLast totalHeight (x :: y :: ys)
            = x :: stretchLast totalHeight (y :: ys) from rfl, hz,
          List.getLast?_cons_cons]
        exact ih

/-- C7: `getBubbleSelectionIntervals` iterates members in order, starting a
new interval at a selected member's (top, height) when the result is empty
or the member's rectangle neither overlaps nor touches the last interval
vertically, and otherwise merging the last interval to span from the
minimum top to the maximum bottom; and when the last member is selected,
the final interval is stretched to end at the group's total height. -/
theorem claim_C7_selection_intervals (st : GroupState) (totalHeight : Int)
    (sel : Nat → Bool) :
    getBubbleSelectionIntervals st totalHeight sel
      = bubbleSelectionIntervalsSpec st totalHeight sel ∧
    (sel (st.parts.length - 1) = true →
      ∀ iv ∈ (getBubbleSelectionIntervals st totalHeight sel).getLast?,
        iv.top + iv.height = totalHeight) := by
  constructor
  · rw [getBubbleSelectionIntervals, bubbleSelectionIntervalsSpec,
      selectionLoop_eq_spec]
  · intro hsel
    rw [getBubbleSelectionIntervals, if_pos hsel]
    exact stretchLast_getLast totalHeight _

/-- A concrete member with current geometry occupying the top band. -/
def partSelTop : Part := { partTall with geometry := ⟨0, 0, 100, 50⟩ }

/-- A concrete member with current geometry occupying the next band. -/
def partSelBottom : Part := { partShort with geometry := ⟨0, 50, 100, 30⟩ }

/-- A two-member group with laid-out current geometry for selection
tests. -/
def stSelection : GroupState :=
  { mode := Mode.grid, parts := [partSelTop, partSelBottom],
    caption := emptyCaption, isBubbleBottom := false }

theorem claim_C7_selection_intervals_witness :
    ((fun _ => true : Nat → Bool) (stSelection.parts.length - 1) = true) ∧
    (getBubbleSelectionIntervals stSelection 100 (fun _ => true)
      = bubbleSelectionIntervalsSpec stSelection 100 (fun _ => true)) ∧
    ∀ iv ∈ (getBubbleSelectionIntervals stSelection 100
        (fun _ => true)).getLast?,
      iv.top + iv.height = 100 :=
  ⟨rfl, (claim_C7_selection_intervals stSelection 100 (fun _ => true)).1,
    (claim_C7_selection_intervals stSelection 100 (fun _ => true)).2 rfl⟩

/-- The three answers of the point resolver, modelling `PointState`. -/
inductive PointState where
  | outside
  | inside
  | groupPart
deriving DecidableEq, Inhabited, Repr

/-- Faithful model of `QRect::contains(QPoint)`: the rectangle stores its
corners as `x2 = x + w - 1`, `y2 = y + h - 1`, the bounds are swapped when
the stored corners are inverted by more than one, and the point must lie
inside or on the edges. -/
def rectContainsPoint (rect : QRectM) (px py : Int) : Bool :=
  let x1 := rect.x
  let y1 := rect.y
  let x2 := rect.x + rect.w - 1
  let y2 := rect.y + rect.h - 1
  let xlo := if x2 < x1 - 1 then x2 else x1
  let xhi := if x2 < x1 - 1 then x1 else x2
  let ylo := if y2 < y1 - 1 then y2 else y1
  let yhi := if y2 < y1 - 1 then y1 else y2
  decide (xlo ≤ px) && decide (px ≤ xhi)
    && decide (ylo ≤ py) && decide (py ≤ yhi)

/-- Embedding of `GroupedMedia::pointState` (source lines 302-312): Outside
when the point misses the group's bounding rectangle `(0, 0, width,
height)`, GroupPart when some member's current geometry contains it, and
Inside otherwise.  The group's current `width()` and `height()` are
parameters. -/
def pointState (st : GroupState) (width height px py : Int) : PointState :=
  if !(rectContainsPoint ⟨0, 0, width, height⟩ px py) then
    PointState.outside
  else if st.parts.any (fun p => rectContainsPoint p.geometry px py) then
    PointState.groupPart
  else PointState.inside

/-- C8: `pointState` answers Outside exactly when the point misses the
bounding rectangle; for a point inside the bounding rectangle it answers
GroupPart exactly when some member's current geometry contains the point,
Inside exactly when none does, and never Outside. -/
theorem claim_C8_point_state (st : GroupState) (width height px py : Int) :
    (pointState st width height px py = PointState.outside
      ↔ rectContainsPoint ⟨0, 0, width, height⟩ px py = false) ∧
    (rectContainsPoint ⟨0, 0, width, height⟩ px py = true →
      (pointState st width height px py = PointState.groupPart
        ↔ ∃ p ∈ st.parts, rectContainsPoint p.geometry px py = true) ∧
      (pointState st width height px py = PointState.inside
        ↔ ∀ p ∈ st.parts, rectContainsPoint p.geometry px py = false) ∧
      pointState st width height px py ≠ PointState.outside) := by
  by_cases hbox : rectContainsPoint ⟨0, 0, width, height⟩ px py = true
  · by_cases hany : st.parts.any
        (fun p => rectContainsPoint p.geometry px py) = true
    · have hres : pointState st width height px py = PointState.groupPart := by
        rw [pointState, if_neg (by simp [hbox]), if_pos hany]
      rw [hres]
      refine ⟨by simp [hbox], fun _ => ⟨?_, ?_, by simp⟩⟩
      · simpa [List.any_eq_true] using hany
      · simp only [List.any_eq_true] at hany
        obtain ⟨p, hp, hc⟩ := hany
        constructor
        · intro h
          exact absurd h (by simp)
        · intro hall
          exact absurd (hall p hp) (by simp [hc])
    · have hres : pointState st width height px py = PointState.inside := by
        rw [pointState, if_neg (by simp [hbox]), if_neg hany]
      rw [hres]
      simp only [List.any_eq_true, not_exists] at hany
      push_neg at hany
      refine ⟨by simp [hbox], fun _ => ⟨?_, ?_, by simp⟩⟩
      · constructor
        · intro h
          exact absurd h (by simp)
        · intro ⟨p, hp, hc⟩
          exact absurd hc (by simpa using hany p hp)
      · constructor
        · intro _ p hp
          simpa using hany p hp
        · intro _
          rfl
  · have hbf : rectContainsPoint ⟨0, 0, width, height⟩ px py = false := by
      simpa using hbox
    have hres : pointState st width height px py = PointState.outside := by
      rw [pointState, if_pos (by simp [hbf])]
    rw [hres]
    exact ⟨by simp [hbf], fun h => absurd h hbox⟩

theorem claim_C8_point_state_witness :
    rectContainsPoint ⟨0, 0, 100, 80⟩ 10 60 = true ∧
    (pointState stSelection 100 80 10 60 = PointState.groupPart
      ↔ ∃ p ∈ stSelection.parts, rectContainsPoint p.geometry 10 60 = true) :=
  ⟨by decide, ((claim_C8_point_state stSelection 100 80 10 60).2 (by decide)).1⟩

/-- First pass of `countOptimalSize` in Column mode (source lines 113-119):
the running maximum of the members' own natural widths after
`initDimensions`, starting from zero; in Grid mode the accumulator stays
zero. -/
def columnStartWidth (st : GroupState) : Int :=
  if st.mode = Mode.column then
    st.parts.foldl (fun acc p => max acc p.contentMaxWidth) 0
  else 0

/-- The per-member optimal sizes `sizeForGroupingOptimal(maxWidth, last)`
collected in order (source lines 120-124), the last flag set on the final
member. -/
def optimalSizes (sharedWidth : Int) : List Part → List QSizeM
  | [] => []
  | p :: rest =>
    p.sizeForGroupingOptimal sharedWidth rest.isEmpty
      :: optimalSizes sharedWidth rest

/-- The initial rectangle set of `countOptimalSize` (source lines 126-132):
the external grid packer `Ui::LayoutMediaGroup` — passed in as an opaque
function, as the specification declares it an external collaborator — in
Grid mode, and `LayoutPlaylist` in Column mode. -/
def optimalLayout (cfg : Config) (st : GroupState)
    (layoutMediaGroup :
      List QSizeM → Int → Int → Int → List GroupMediaLayout) :
    List GroupMediaLayout :=
  let sizes := optimalSizes (columnStartWidth st) st.parts
  if st.mode = Mode.grid then
    layoutMediaGroup sizes cfg.historyGroupWidthMax cfg.historyGroupWidthMin
      cfg.historyGroupSkip
  else LayoutPlaylist sizes

/-- Embedding of `GroupedMedia::countOptimalSize` (source lines 102-152).
Returns the natural size and the members with their stored
`initialGeometry` and `sides`.  The source asserts that the layout length
equals the member count; the member update is modelled over the zipped
lists, which agrees with the source exactly when that assertion holds. -/
def countOptimalSize (cfg : Config) (st : GroupState)
    (layoutMediaGroup :
      List QSizeM → Int → Int → Int → List GroupMediaLayout) :
    QSizeM × List Part :=
  let layout := optimalLayout cfg st layoutMediaGroup
  let maxWidth := layout.foldl
    (fun acc l => max acc (l.geometry.x + l.geometry.w)) (columnStartWidth st)
  let minHeight := layout.foldl
    (fun acc l => max acc (l.geometry.y + l.geometry.h)) 0
  let parts := (st.parts.zip layout).map fun pl =>
    { pl.1 with initialGeometry := pl.2.geometry, sides := pl.2.sides }
  (⟨maxWidth, minHeight + captionAddition cfg st maxWidth⟩, parts)

/-- The maximum rectangle right edge `x + w` over a layout, the
accumulator starting at zero. -/
def maxRightEdge (layout : List GroupMediaLayout) : Int :=
  layout.foldl (fun acc l => max acc (l.geometry.x + l.geometry.w)) 0

/-- The maximum rectangle bottom edge `y + h` over a layout, the
accumulator starting at zero. -/
def maxBottomEdge (layout : List GroupMediaLayout) : Int :=
  layout.foldl (fun acc l => max acc (l.geometry.y + l.geometry.h)) 0

/-- Folding a running maximum from a merged start value splits into a
maximum with the fold from the second start value. -/
theorem foldl_max_start {α : Type} (f : α → Int) (l : List α) :
    ∀ i j : Int, l.foldl (fun acc x => max acc (f x)) (max i j)
      = max i (l.foldl (fun acc x => max acc (f x)) j) := by
  induction l with
  | nil => intro i j; rfl
  | cons x xs ih =>
    intro i j
    simp only [List.foldl_cons]
    rw [max_assoc, ih]

/-- A running maximum never drops below its start value. -/
theorem foldl_max_ge_start {α : Type} (f : α → Int) (l : List α) :
    ∀ j : Int, j ≤ l.foldl (fun acc x => max acc (f x)) j := by
  induction l with
  | nil => intro j; exact le_refl j
  | cons x xs ih =>
    intro j
    simp only [List.foldl_cons]
    exact le_trans (le_max_left j (f x)) (ih (max j (f x)))

/-- The Column-mode first-pass width is never negative. -/
theorem columnStartWidth_nonneg (st : GroupState) :
    0 ≤ columnStartWidth st := by
  rw [columnStartWidth]
  by_cases h : st.mode = Mode.column
  · rw [if_pos h]
    exact foldl_max_ge_start _ _ 0
  · rw [if_neg h]

/-- A single-member Column-mode group whose member's own natural width 100
exceeds the width 50 of its optimal grouped size. -/
def partColumnWide : Part :=
  { item := 4, media := mediaFileA, contentMaxWidth := 100,
    sizeForGrouping := fun w _ => ⟨w, 30⟩,
    sizeForGroupingOptimal := fun _ _ => ⟨50, 20⟩,
    initialGeometry := ⟨0, 0, 0, 0⟩,
    sides := ⟨false, false, false, false⟩,
    geometry := ⟨0, 0, 0, 0⟩ }

/-- A Column-mode group exercising the first-pass width accumulation. -/
def stColumn : GroupState :=
  { mode := Mode.column, parts := [partColumnWide],
    caption := emptyCaption, isBubbleBottom := false }

/-- A trivial external grid packer; it is never consulted in Column
mode. -/
def layoutZero : List QSizeM → Int → Int → Int → List GroupMediaLayout :=
  fun _ _ _ _ => []

/-- C9 is false as stated: in Column mode the returned `maxWidth` starts
from the members' own measured natural widths, so a member whose
`maxWidth()` is 100 but whose optimal grouped size is only 50 wide makes
`countOptimalSize` return width 100 while the maximum rectangle right edge
is 50. -/
theorem claim_C9_counterexample :
    (optimalLayout cfgW stColumn layoutZero).length
      = stColumn.parts.length ∧
    (countOptimalSize cfgW stColumn layoutZero).1.w = 100 ∧
    maxRightEdge (optimalLayout cfgW stColumn layoutZero) = 50 ∧
    (100 : Int) ≠ 50 := by
  refine ⟨by decide, by decide, by decide, by decide⟩

/-- C9 (amended): `countOptimalSize` returns a `maxWidth` equal to the
maximum of the Column-mode first-pass width (the members' own natural
widths; zero in Grid mode) and the maximum rectangle right edge — in Grid
mode exactly the maximum right edge — and a `minHeight` equal to the
maximum rectangle bottom edge plus, for a non-empty caption, the caption
gap, the caption height at the padded width, and the bottom padding when
the group is the bubble bottom. -/
theorem claim_C9_optimal_size (cfg : Config) (st : GroupState)
    (layoutMediaGroup :
      List QSizeM → Int → Int → Int → List GroupMediaLayout)
    (_hlen : (optimalLayout cfg st layoutMediaGroup).length
      = st.parts.length) :
    (countOptimalSize cfg st layoutMediaGroup).1.w
      = max (columnStartWidth st)
          (maxRightEdge (optimalLayout cfg st layoutMediaGroup)) ∧
    (st.mode = Mode.grid →
      (countOptimalSize cfg st layoutMediaGroup).1.w
        = maxRightEdge (optimalLayout cfg st layoutMediaGroup)) ∧
    (countOptimalSize cfg st layoutMediaGroup).1.h
      = maxBottomEdge (optimalLayout cfg st layoutMediaGroup)
        + captionAddition cfg st
            (max (columnStartWidth st)
              (maxRightEdge (optimalLayout cfg st layoutMediaGroup))) := by
  have hsplit : (optimalLayout cfg st layoutMediaGroup).foldl
      (fun acc l => max acc (l.geometry.x + l.geometry.w))
      (columnStartWidth st)
    = max (columnStartWidth st)
        (maxRightEdge (optimalLayout cfg st layoutMediaGroup)) := by
    rw [show columnStartWidth st = max (columnStartWidth st) 0 from
      (max_eq_left (columnStartWidth_nonneg st)).symm,
      foldl_max_start, maxRightEdge]
    have h0 : (0 : Int) ≤ (optimalLayout cfg st layoutMediaGroup).foldl
        (fun acc l => max acc (l.geometry.x + l.geometry.w)) 0 :=
      foldl_max_ge_start _ _ 0
    omega
  refine ⟨?_, ?_, ?_⟩
  · simp only [countOptimalSize]
    rw [hsplit]
  · intro hgrid
    simp only [countOptimalSize]
    rw [hsplit]
    have h0 : columnStartWidth st = 0 := by
      rw [columnStartWidth, if_neg (by rw [hgrid]; simp)]
    rw [h0]
    exact max_eq_right (le_trans (le_refl 0)
      (foldl_max_ge_start _ (optimalLayout cfg st layoutMediaGroup) 0))
  · simp only [countOptimalSize]
    rw [hsplit, maxBottomEdge]

theorem claim_C9_optimal_size_witness :
    (optimalLayout cfgW stColumn layoutZero).length
      = stColumn.parts.length ∧
    (countOptimalSize cfgW stColumn layoutZero).1.w
      = max (columnStartWidth stColumn)
          (maxRightEdge (optimalLayout cfgW stColumn layoutZero)) :=
  ⟨by decide, (claim_C9_optimal_size cfgW stColumn layoutZero (by decide)).1⟩

/-- The member heights used by the column branch of `countCurrentSize`:
each member's `sizeForGrouping(newWidth, last)` height. -/
def columnHeights (newWidth : Int) : List Part → List Int
  | [] => []
  | p :: rest =>
    (p.sizeForGrouping newWidth rest.isEmpty).h :: columnHeights newWidth rest

/-- The accumulated top after the column loop is the start top plus the
sum of the member heights. -/
theorem columnLayout_snd (w : Int) (ps : List Part) :
    ∀ t : Int, (columnLayout w t ps).2 = t + (columnHeights w ps).sum := by
  induction ps with
  | nil => intro t; simp [columnLayout, columnHeights]
  | cons p rest ih =>
    intro t
    simp only [columnLayout, columnHeights, List.sum_cons, ih]
    ring

/-- The column loop is length-preserving. -/
theorem columnLayout_length (w : Int) (ps : List Part) :
    ∀ t : Int, (columnLayout w t ps).1.length = ps.length := by
  induction ps with
  | nil => intro t; rfl
  | cons p rest ih => intro t; simp [columnLayout, ih]

/-- Member description of the column loop: member `i` sits at x = 0 below
the start top plus the preceding heights, spans exactly the given width,
and is as tall as its own grouped height. -/
theorem columnLayout_getD (w : Int) (ps : List Part) :
    ∀ (t : Int) (i : Nat), i < ps.length →
      (((columnLayout w t ps).1.getD i default)).geometry
        = ⟨0, t + ((columnHeights w ps).take i).sum, w,
            (columnHeights w ps).getD i 0⟩ := by
  induction ps with
  | nil => intro t i hi; simp at hi
  | cons p rest ih =>
    intro t i hi
    cases i with
    | zero => simp [columnLayout, columnHeights]
    | succ n =>
      have hn : n < rest.length := by simpa using hi
      simp only [columnLayout, columnHeights, List.getD_cons_succ,
        List.take_succ_cons, List.sum_cons, ih (t + _) n hn]
      simp only [QRectM.mk.injEq, true_and, and_true]
      ring

/-- C10: in Column mode, `countCurrentSize` assigns every member a geometry
with x = 0 and width exactly the clamped target width (regardless of the
width its own `sizeForGrouping` call returns), tops forming a gap-free
partition starting at 0 where each member's top is the sum of the
preceding heights, and the pre-caption group height is the sum of all
member heights (the returned height is that sum plus the caption
contribution). -/
theorem claim_C10_column_current_size (cfg : Config) (st : GroupState)
    (maxW newWidth0 : Int) (hmode : st.mode = Mode.column) :
    (countCurrentSize cfg st maxW newWidth0).1.h
      = (columnHeights (min newWidth0 maxW) st.parts).sum
        + captionAddition cfg st (min newWidth0 maxW) ∧
    (countCurrentSize cfg st maxW newWidth0).2.length = st.parts.length ∧
    ∀ i, i < st.parts.length →
      ((countCurrentSize cfg st maxW newWidth0).2.getD i default).geometry
        = ⟨0, ((columnHeights (min newWidth0 maxW) st.parts).take i).sum,
            min newWidth0 maxW,
            (columnHeights (min newWidth0 maxW) st.parts).getD i 0⟩ := by
  have hcc : countCurrentSize cfg st maxW newWidth0
      = (⟨min newWidth0 maxW,
          (columnLayout (min newWidth0 maxW) 0 st.parts).2
            + captionAddition cfg st (min newWidth0 maxW)⟩,
         (columnLayout (min newWidth0 maxW) 0 st.parts).1) := by
    simp only [countCurrentSize]
    rw [if_neg (by rw [hmode]; rintro ⟨h, -⟩; exact absurd h (by simp)),
      if_pos hmode]
  refine ⟨?_, ?_, ?_⟩
  · rw [hcc]
    simp only [columnLayout_snd]
    ring
  · rw [hcc]
    exact columnLayout_length _ _ _
  · intro i hi
    rw [hcc]
    have := columnLayout_getD (min newWidth0 maxW) st.parts 0 i hi
    rw [this]
    simp

theorem claim_C10_column_current_size_witness :
    stColumn.mode = Mode.column ∧
    (countCurrentSize cfgW stColumn 100 120).1.h
      = (columnHeights (min 120 100) stColumn.parts).sum
        + captionAddition cfgW stColumn (min 120 100) :=
  ⟨rfl, (claim_C10_column_current_size cfgW stColumn 100 120 rfl).1⟩

end GroupedMedia
